import Mathlib

/-!
# The logging core of `common/log`

A shallow embedding of `common/log/log.go` and `common/log/logger.go`:

* Go strings are lists of characters (`GoString`); indexing and slicing are the
  list operations at the same positions.  Go indexes bytes; on valid UTF-8 text
  this makes no difference here, since every character the code tests for
  (newline, carriage return, brackets, colon) is a single byte.
* `NewBrush`, `consoleLogWriter.Write` and the console writer constructors are
  pure functions.  The two regular expressions of `newConsoleLogWriter` are
  values of a small regular-expression syntax (`Re`) run by a backtracking
  matcher with the leftmost-first preference order of Go's `regexp` package.
* The asynchronous dispatcher (`generalLogger`) is a transition system: a state
  holds the buffered channel, the semaphore, the done flag and the drain tasks
  started so far; every `select` outcome is one action.  Time is not modelled:
  the ticker case of a `select` may be taken at any step, as it may in Go
  whenever a minute has gone by since the last tick.
-/

set_option linter.unusedVariables false
set_option maxRecDepth 8000

namespace Log

/-! ## Strings -/

/-- A Go string, as the list of its characters. -/
abbrev GoString := List Char

/-- The escape character `\033`. -/
def ESC : Char := Char.ofNat 27

/-! ## `log.go`: colours and brushes -/

/-- The package variable `reset`, the escape sequence `\033[0m`. -/
def reset : GoString := ESC :: "[0m".toList

/-- The map `colours`; a key that is absent yields the empty string, as a Go map
lookup does. -/
def colours (i : GoString) : GoString :=
  if i = "Unknown".toList then ESC :: "[0m".toList
  else if i = "Error".toList then ESC :: "[31m".toList
  else if i = "Warning".toList then ESC :: "[33m".toList
  else if i = "Info".toList then ESC :: "[36m".toList
  else if i = "Debug".toList then ESC :: "[34m".toList
  else if i = "Custom".toList then ESC :: "[1;33m".toList
  else []

/-- The function `NewBrush(i)` applied to `s`. -/
def NewBrush (i : GoString) (s : GoString) : GoString :=
  if s.length = 0 then []
  else
    let e :=
      if s[s.length - 1]? = some '\n' then
        if s.length ≥ 2 ∧ s[s.length - 2]? = some '\r' then s.length - 2
        else s.length - 1
      else s.length
    colours i ++ s.take e ++ reset ++ s.drop e

/-! ## Regular expressions (the part of Go's `regexp` the console writer uses) -/

/-- One-character patterns. -/
inductive Atom
  /-- A literal character. -/
  | lit (c : Char)
  /-- The pattern `.`: any character but a newline. -/
  | dot
  /-- The class `[^c]`: any character but `c`, a newline included. -/
  | notLit (c : Char)
deriving DecidableEq, Repr

/-- Whether a character matches a one-character pattern. -/
def Atom.ok : Atom → Char → Bool
  | .lit c, x => x == c
  | .dot, x => x != '\n'
  | .notLit c, x => x != c

/-- Regular expressions: the operators the two detectors are written with.
Repetition applies to one-character patterns only. -/
inductive Re
  /-- The empty expression. -/
  | empty
  | atom (a : Atom)
  /-- The anchor `^` without the `m` flag: beginning of the text. -/
  | bot
  /-- The anchor `$` under the `m` flag: end of the text or just before a newline. -/
  | eolM
  | seq (a b : Re)
  | alt (a b : Re)
  /-- Greedy `a*`. -/
  | star (a : Atom)
  /-- Non-greedy `a*?`. -/
  | lazyStar (a : Atom)
  /-- The capturing group (each detector has exactly one). -/
  | group (r : Re)
deriving Repr

/-- The capture: start and end index of the group, once it has matched. -/
abbrev Cap := Option (Nat × Nat)

/-- A continuation of the matcher: position, rest of the text, capture so far;
it answers with the end of the match and the final capture. -/
abbrev Cont := Nat → GoString → Cap → Option (Nat × Cap)

/-- Greedy repetition: the longest run is tried first. -/
def starG (a : Atom) (k : Cont) : Nat → GoString → Cap → Option (Nat × Cap)
  | pos, [], cap => k pos [] cap
  | pos, c :: cs, cap =>
    if a.ok c then
      match starG a k (pos + 1) cs cap with
      | some r => some r
      | none => k pos (c :: cs) cap
    else k pos (c :: cs) cap

/-- Non-greedy repetition: the shortest run is tried first. -/
def starL (a : Atom) (k : Cont) : Nat → GoString → Cap → Option (Nat × Cap)
  | pos, [], cap => k pos [] cap
  | pos, c :: cs, cap =>
    match k pos (c :: cs) cap with
    | some r => some r
    | none => if a.ok c then starL a k (pos + 1) cs cap else none

/-- The backtracking matcher, in continuation-passing style: alternatives are
tried left to right and the first success is the answer. -/
def Re.run : Re → Cont → Cont
  | .empty, k => k
  | .atom a, k => fun pos rest cap =>
    match rest with
    | [] => none
    | c :: cs => if a.ok c then k (pos + 1) cs cap else none
  | .bot, k => fun pos rest cap => if pos = 0 then k pos rest cap else none
  | .eolM, k => fun pos rest cap =>
    match rest with
    | [] => k pos [] cap
    | c :: cs => if c = '\n' then k pos (c :: cs) cap else none
  | .seq a b, k => a.run (b.run k)
  | .alt a b, k => fun pos rest cap =>
    match a.run k pos rest cap with
    | some r => some r
    | none => b.run k pos rest cap
  | .star a, k => starG a k
  | .lazyStar a, k => starL a k
  | .group r, k => fun pos rest cap =>
    r.run (fun pos' rest' _ => k pos' rest' (some (pos, pos'))) pos rest cap

/-- The final continuation: the match ends here. -/
def accept : Cont := fun pos _ cap => some (pos, cap)

/-- The leftmost match at or after `pos`: start, end and capture. -/
def findFrom (r : Re) : Nat → GoString → Option (Nat × Nat × Cap)
  | pos, [] =>
    match r.run accept pos [] none with
    | some (e, cap) => some (pos, e, cap)
    | none => none
  | pos, c :: cs =>
    match r.run accept pos (c :: cs) none with
    | some (e, cap) => some (pos, e, cap)
    | none => findFrom r (pos + 1) cs

/-- The substring `s[b:e]`. -/
def slice (s : GoString) (b e : Nat) : GoString := (s.take e).drop b

/-- The method `FindStringSubmatchIndex` for an expression with one group: the
index pairs of the match and of the group, or the empty slice when nothing
matches.  (Both detectors have a mandatory group, so it is set in every match.) -/
def FindStringSubmatchIndex (r : Re) (s : GoString) : List Nat :=
  match findFrom r 0 s with
  | some (b, e, some (gb, ge)) => [b, e, gb, ge]
  | some (b, e, none) => [b, e]
  | none => []

/-- The method `FindStringSubmatch` for an expression with one group: the text
of the match and of the group, or the empty slice when nothing matches. -/
def FindStringSubmatch (r : Re) (s : GoString) : List GoString :=
  match findFrom r 0 s with
  | some (b, e, some (gb, ge)) => [slice s b e, slice s gb ge]
  | some (b, e, none) => [slice s b e]
  | none => []

/-- A literal word: its characters in sequence. -/
def Re.word : GoString → Re
  | [] => .empty
  | c :: cs => .seq (.atom (.lit c)) (Re.word cs)

/-! ## `logger.go`: the console writer -/

/-- The output streams of the process. -/
inductive Stream
  | Stdout
  | Stderr
deriving DecidableEq, Repr

/-- The type `consoleLogWriter`; `logger` is the stream its `log.Logger` was
created over. -/
structure consoleLogWriter where
  logger : Stream
  severityDetector : Re
  routingDetector : Re
  isTerminal : Bool

/-- The expression `^\[(Unknown|Info|Warning|Debug|Error)\]`. -/
def severityRe : Re :=
  .seq .bot (.seq (.atom (.lit '['))
    (.seq (.group (.alt (Re.word "Unknown".toList) (.alt (Re.word "Info".toList)
      (.alt (Re.word "Warning".toList) (.alt (Re.word "Debug".toList)
        (Re.word "Error".toList))))))
      (.atom (.lit ']'))))

/-- The group `(\[.*?\])` of the routing detector. -/
def routingGroup : Re :=
  .group (.seq (.atom (.lit '[')) (.seq (.lazyStar .dot) (.atom (.lit ']'))))

/-- The expression `(?m):.*[^\[].*(\[.*?\])$`. -/
def routingRe : Re :=
  .seq (.atom (.lit ':')) (.seq (.star .dot) (.seq (.atom (.notLit '['))
    (.seq (.star .dot) (.seq routingGroup .eolM))))

/-- Modelled from the spec: the generated table entry
`Severity_name[int32(Severity_Info)]`, the display name of the severity Info. -/
def Severity_name_Info : GoString := "Info".toList

/-- One call of `Print` on a `log.Logger`: the stream the logger writes to and
the argument of the call. -/
structure Printed where
  out : Stream
  text : GoString
deriving DecidableEq, Repr

/-- The method `consoleLogWriter.Write`: the call of `w.logger.Print` it makes and
the error it returns (always `nil`, here `none`). -/
def consoleLogWriter.Write (w : consoleLogWriter) (s : GoString) :
    Printed × Option GoString :=
  let s :=
    if w.isTerminal then
      let routeIndex := FindStringSubmatchIndex w.routingDetector s
      let s :=
        if routeIndex.length = 4 then
          let b := routeIndex.getD 2 0
          let e := routeIndex.getD 3 0
          let r := NewBrush "Custom".toList (slice s b e)
          s.take b ++ r ++ s.drop e
        else s
      let matches_ := FindStringSubmatch w.severityDetector s
      let level := if matches_.length ≥ 2 then matches_.getD 1 [] else Severity_name_Info
      NewBrush level s
    else s
  (⟨w.logger, s⟩, none)

/-- The function `newConsoleLogWriter(w)`; `stdoutIsTerminal` is what the two
terminal tests answer for the descriptor of standard output. -/
def newConsoleLogWriter (stdoutIsTerminal : Bool) (w : Stream) : consoleLogWriter :=
  { isTerminal := stdoutIsTerminal
    logger := Stream.Stdout
    severityDetector := severityRe
    routingDetector := routingRe }

/-- The function `CreateStdoutLogWriter`: a creator of console writers. -/
def CreateStdoutLogWriter (stdoutIsTerminal : Bool) : Unit → consoleLogWriter :=
  fun _ => newConsoleLogWriter stdoutIsTerminal Stream.Stdout

/-- The function `CreateStderrLogWriter`: a creator of console writers. -/
def CreateStderrLogWriter (stdoutIsTerminal : Bool) : Unit → consoleLogWriter :=
  fun _ => newConsoleLogWriter stdoutIsTerminal Stream.Stderr

/-! ## `logger.go`: the dispatcher

The dispatcher is a transition system.  A state records the buffered channel,
the semaphore, the done signal and every call of `run` that `Handle` has
started; an action is one atomic piece of the code: a `select` of `Handle`, the
start of `run` up to its first `select`, one `select` outcome of `run`, or
`Close`.  A writer is represented by the calls made on it: the lines passed to
`Write` and whether `Close` was called. -/

/-- A value of the interface `Message`: what its method `String` returns. -/
structure Message where
  String : GoString
deriving DecidableEq, Repr

/-- The line `run` passes to the writer for a message. -/
def lineOf (sep : GoString) (msg : Message) : GoString := msg.String ++ sep

/-- One call of `run` (a drain task). -/
inductive Task
  /-- Started by `go l.run()`; `l.creator()` has not been called yet. -/
  | started
  /-- At the `select` of the loop, with the local `dataWritten` and the lines
  passed to `logger.Write` so far, oldest first. -/
  | looping (dataWritten : Bool) (written : List GoString)
  /-- Returned: the lines it had passed to `logger.Write`, and whether the
  deferred `logger.Close()` ran.  The deferred `l.access.Signal()` has run. -/
  | exited (written : List GoString) (closedSink : Bool)
deriving DecidableEq, Repr

/-- Whether the call of `run` has not returned yet. -/
def Task.alive : Task → Bool
  | .exited _ _ => false
  | _ => true

/-- The lines a task has passed to its writer. -/
def Task.written : Task → List GoString
  | .started => []
  | .looping _ w => w
  | .exited w _ => w

/-- The type `generalLogger`.  `access` is the number of permits in the
semaphore, `done` whether the done signal is closed, `tasks` the calls of `run`
in the order `Handle` started them, `creatorCalls` how often `creator` was
called. -/
structure generalLogger where
  buffer : List Message
  access : Nat
  done : Bool
  tasks : List Task
  creatorCalls : Nat
deriving DecidableEq, Repr

/-- Modelled from the spec: `semaphore.New(n)` of `common/signal/semaphore`, the
writer-task token, "a binary permit (capacity 1)" when `n` is 1: the number of
permits available. -/
def semaphoreNew (n : Nat) : Nat := n

/-- Modelled from the spec: `done.New()` of `common/signal/done`, the liveness
signal, "a single process-wide cancellation flag", not set at first. -/
def doneNew : Bool := false

/-- The function `NewLogger`: an empty channel of capacity 16, one permit, the
done signal open, no task. -/
def NewLogger : generalLogger :=
  { buffer := []
    access := semaphoreNew 1
    done := doneNew
    tasks := []
    creatorCalls := 0 }

/-- The first `select` of `Handle`: a send on the channel of capacity 16 that
does not block; with the channel full the default case drops the message. -/
def generalLogger.send (l : generalLogger) (msg : Message) : generalLogger :=
  if l.buffer.length < 16 then { l with buffer := l.buffer ++ [msg] } else l

/-- The second `select` of `Handle`: a receive on the semaphore that does not
block; with a permit taken, `go l.run()` starts a task. -/
def generalLogger.acquire (l : generalLogger) : generalLogger :=
  if 0 < l.access then { l with access := l.access - 1, tasks := l.tasks ++ [Task.started] }
  else l

/-- The method `Handle`. -/
def generalLogger.Handle (l : generalLogger) (msg : Message) : generalLogger :=
  (l.send msg).acquire

/-- The method `Close`: closes the done signal. -/
def generalLogger.Close (l : generalLogger) : generalLogger :=
  { l with done := true }

/-- A return of task `i`: its deferred calls run, `logger.Close()` when it was
deferred and `l.access.Signal()` always. -/
def generalLogger.exit (l : generalLogger) (i : Nat) (written : List GoString)
    (closedSink : Bool) : generalLogger :=
  { l with access := l.access + 1, tasks := l.tasks.set i (Task.exited written closedSink) }

/-- The method `run` from its start to its first `select`: `sink` tells whether
`l.creator()` returned a writer (`true`) or `nil` (`false`). -/
def generalLogger.runStart (l : generalLogger) (i : Nat) (sink : Bool) : generalLogger :=
  match l.tasks[i]? with
  | some Task.started =>
    let l := { l with creatorCalls := l.creatorCalls + 1 }
    if sink then { l with tasks := l.tasks.set i (Task.looping false []) }
    else l.exit i [] false
  | _ => l

/-- The `select` of `run` takes `<-l.done.Wait()`, which is ready once the done
signal is closed. -/
def generalLogger.onDone (l : generalLogger) (i : Nat) : generalLogger :=
  match l.tasks[i]? with
  | some (Task.looping _ w) => if l.done then l.exit i w true else l
  | _ => l

/-- The `select` of `run` takes `msg := <-l.buffer`, which is ready when the
channel holds a message; `sep` is `platform.LineSeparator()`. -/
def generalLogger.onMsg (sep : GoString) (l : generalLogger) (i : Nat) : generalLogger :=
  match l.tasks[i]? with
  | some (Task.looping _ w) =>
    match l.buffer with
    | msg :: rest =>
      { l with buffer := rest, tasks := l.tasks.set i (Task.looping true (w ++ [lineOf sep msg])) }
    | [] => l
  | _ => l

/-- The `select` of `run` takes `<-ticker.C`. -/
def generalLogger.onTick (l : generalLogger) (i : Nat) : generalLogger :=
  match l.tasks[i]? with
  | some (Task.looping dataWritten w) =>
    if !dataWritten then l.exit i w true
    else { l with tasks := l.tasks.set i (Task.looping false w) }
  | _ => l

/-- The atomic steps of the dispatcher. -/
inductive Action
  /-- A whole call of `Handle`. -/
  | handle (msg : Message)
  /-- The first `select` of a call of `Handle` alone. -/
  | send (msg : Message)
  /-- The second `select` of a call of `Handle` alone. -/
  | acquire
  /-- Task `i` runs up to its first `select`; `sink` is the answer of the creator. -/
  | create (i : Nat) (sink : Bool)
  /-- Task `i` takes the done case. -/
  | onDone (i : Nat)
  /-- Task `i` takes the message case. -/
  | onMsg (i : Nat)
  /-- Task `i` takes the ticker case. -/
  | onTick (i : Nat)
  /-- A call of `Close`. -/
  | close
deriving DecidableEq, Repr

/-- One step; an action that is not enabled leaves the state as it is. -/
def step (sep : GoString) (l : generalLogger) : Action → generalLogger
  | .handle msg => l.Handle msg
  | .send msg => l.send msg
  | .acquire => l.acquire
  | .create i sink => l.runStart i sink
  | .onDone i => l.onDone i
  | .onMsg i => l.onMsg sep i
  | .onTick i => l.onTick i
  | .close => l.Close

/-- A run of the dispatcher: the actions in order. -/
def exec (sep : GoString) (l : generalLogger) (acts : List Action) : generalLogger :=
  acts.foldl (step sep) l

/-- The number of tasks that have not returned. -/
def live (l : generalLogger) : Nat := l.tasks.countP Task.alive

/-- The lines task `i` has passed to its writer. -/
def writtenBy (l : generalLogger) (i : Nat) : List GoString :=
  match l.tasks[i]? with
  | some t => t.written
  | none => []

/-! ## Notions the statements use -/

/-- The five names the severity detector knows. -/
def severityNames : List GoString :=
  ["Unknown".toList, "Info".toList, "Warning".toList, "Debug".toList, "Error".toList]

/-- The invariant of the dispatcher: the permits in the semaphore and the tasks
that have not returned are one in all. -/
def Inv (l : generalLogger) : Prop := live l + l.access = 1

/-- What holds of a task between two ticks, `w1` being the lines it had written
at the earlier tick (or at its start): while it loops, `dataWritten` is set
exactly when it has written a line since. -/
def sinceTick (w1 : List GoString) : Option Task → Prop
  | some (Task.looping dw w) => ∃ extra, w = w1 ++ extra ∧ (dw = true ↔ extra ≠ [])
  | some (Task.exited _ _) => True
  | _ => False

/-! ## Brushes -/

theorem getElem?_length_sub_one (b : GoString) (c : Char) :
    (b ++ [c])[(b ++ [c]).length - 1]? = some c := by
  simp

theorem getElem?_length_sub_two (b : GoString) (c d : Char) :
    (b ++ [c, d])[(b ++ [c, d]).length - 2]? = some c := by
  have h : (b ++ [c, d]).length - 2 = b.length := by simp
  rw [h, List.getElem?_append_right (le_refl _)]
  simp

theorem getElem?_length_sub_two_snoc (b : GoString) (d : Char) (h : 2 ≤ (b ++ [d]).length) :
    (b ++ [d])[(b ++ [d]).length - 2]? = b.getLast? := by
  induction b using List.reverseRecOn with
  | nil => simp at h
  | append_singleton l a _ =>
    have : (l ++ [a] ++ [d]) = l ++ [a, d] := by simp
    rw [this, getElem?_length_sub_two]
    simp

theorem NewBrush_nil (i : GoString) : NewBrush i [] = [] := by
  simp [NewBrush]

theorem NewBrush_crlf (i b : GoString) :
    NewBrush i (b ++ ['\r', '\n']) = colours i ++ b ++ reset ++ ['\r', '\n'] := by
  have h1 : (b ++ ['\r', '\n'])[(b ++ ['\r', '\n']).length - 1]? = some '\n' := by
    have : b ++ ['\r', '\n'] = (b ++ ['\r']) ++ ['\n'] := by simp
    rw [this]; exact getElem?_length_sub_one _ _
  have h2 := getElem?_length_sub_two b '\r' '\n'
  unfold NewBrush
  rw [if_neg (by simp)]
  simp only [h1, h2, if_true]
  simp

theorem NewBrush_lf (i b : GoString) (hb : b.getLast? ≠ some '\r') :
    NewBrush i (b ++ ['\n']) = colours i ++ b ++ reset ++ ['\n'] := by
  have h1 := getElem?_length_sub_one b '\n'
  unfold NewBrush
  rw [if_neg (by simp)]
  simp only [h1, if_true]
  have h3 : ¬ ((b ++ ['\n']).length ≥ 2 ∧ (b ++ ['\n'])[(b ++ ['\n']).length - 2]? = some '\r') := by
    rintro ⟨h2, h4⟩
    rw [getElem?_length_sub_two_snoc b '\n' h2] at h4
    exact hb h4
  rw [if_neg h3]
  simp

theorem NewBrush_plain (i s : GoString) (hs : s ≠ []) (hl : s.getLast? ≠ some '\n') :
    NewBrush i s = colours i ++ s ++ reset := by
  induction s using List.reverseRecOn with
  | nil => exact absurd rfl hs
  | append_singleton l a _ =>
    have h1 := getElem?_length_sub_one l a
    have ha : a ≠ '\n' := by
      intro h; apply hl; simp [h]
    unfold NewBrush
    rw [if_neg (by simp)]
    simp only [h1]
    rw [if_neg (by simpa using ha)]
    rw [List.take_of_length_le (le_refl _), List.drop_of_length_le (le_refl _)]
    simp

/-! ## The matcher: what a successful run means, and when a run succeeds -/

theorem starG_sound (a : Atom) (k : Cont) (rest : GoString) :
    ∀ (pos : Nat) (cap : Cap) (r : Nat × Cap), starG a k pos rest cap = some r →
      ∃ xs ys, rest = xs ++ ys ∧ (∀ c ∈ xs, a.ok c = true) ∧
        k (pos + xs.length) ys cap = some r := by
  induction rest with
  | nil =>
    intro pos cap r h
    exact ⟨[], [], rfl, by simp, by simpa [starG] using h⟩
  | cons c cs ih =>
    intro pos cap r h
    unfold starG at h
    by_cases hc : a.ok c = true
    · rw [if_pos hc] at h
      cases hrec : starG a k (pos + 1) cs cap with
      | some r1 =>
        rw [hrec] at h
        obtain ⟨xs, ys, h1, h2, h3⟩ := ih (pos + 1) cap r1 hrec
        refine ⟨c :: xs, ys, by simp [h1], ?_, ?_⟩
        · intro d hd
          rcases List.mem_cons.1 hd with rfl | hd
          · exact hc
          · exact h2 d hd
        · have : pos + (c :: xs).length = pos + 1 + xs.length := by simp; omega
          rw [this, h3]; simpa using h
      | none =>
        rw [hrec] at h
        exact ⟨[], c :: cs, rfl, by simp, by simpa using h⟩
    · rw [if_neg hc] at h
      exact ⟨[], c :: cs, rfl, by simp, by simpa using h⟩

theorem starG_of_cont (a : Atom) (k : Cont) (rest : GoString) (pos : Nat) (cap : Cap)
    (h : (k pos rest cap).isSome) : (starG a k pos rest cap).isSome := by
  cases rest with
  | nil => simpa [starG] using h
  | cons c cs =>
    unfold starG
    by_cases hc : a.ok c = true
    · rw [if_pos hc]
      cases starG a k (pos + 1) cs cap with
      | some r1 => simp
      | none => simpa using h
    · rw [if_neg hc]; exact h

theorem starG_complete (a : Atom) (k : Cont) (xs : GoString) :
    ∀ (ys : GoString) (pos : Nat) (cap : Cap), (∀ c ∈ xs, a.ok c = true) →
      (k (pos + xs.length) ys cap).isSome → (starG a k pos (xs ++ ys) cap).isSome := by
  induction xs with
  | nil =>
    intro ys pos cap _ h
    exact starG_of_cont a k ys pos cap (by simpa using h)
  | cons x xs ih =>
    intro ys pos cap hall h
    have hx : a.ok x = true := hall x (by simp)
    have hrec : (starG a k (pos + 1) (xs ++ ys) cap).isSome := by
      apply ih ys (pos + 1) cap (fun c hc => hall c (by simp [hc]))
      have : pos + 1 + xs.length = pos + (x :: xs).length := by simp; omega
      rw [this]; exact h
    show (starG a k pos (x :: (xs ++ ys)) cap).isSome
    unfold starG
    rw [if_pos hx]
    cases hs : starG a k (pos + 1) (xs ++ ys) cap with
    | some r1 => simp
    | none => rw [hs] at hrec; simp at hrec

theorem starL_sound (a : Atom) (k : Cont) (rest : GoString) :
    ∀ (pos : Nat) (cap : Cap) (r : Nat × Cap), starL a k pos rest cap = some r →
      ∃ xs ys, rest = xs ++ ys ∧ (∀ c ∈ xs, a.ok c = true) ∧
        k (pos + xs.length) ys cap = some r := by
  induction rest with
  | nil =>
    intro pos cap r h
    exact ⟨[], [], rfl, by simp, by simpa [starL] using h⟩
  | cons c cs ih =>
    intro pos cap r h
    unfold starL at h
    cases hk : k pos (c :: cs) cap with
    | some r1 =>
      rw [hk] at h
      exact ⟨[], c :: cs, rfl, by simp, by simpa [hk] using h⟩
    | none =>
      rw [hk] at h
      by_cases hc : a.ok c = true
      · simp only [hc, if_true] at h
        obtain ⟨xs, ys, h1, h2, h3⟩ := ih (pos + 1) cap r h
        refine ⟨c :: xs, ys, by simp [h1], ?_, ?_⟩
        · intro d hd
          rcases List.mem_cons.1 hd with rfl | hd
          · exact hc
          · exact h2 d hd
        · have : pos + (c :: xs).length = pos + 1 + xs.length := by simp; omega
          rw [this, h3]
      · simp [hc] at h

theorem starL_complete (a : Atom) (k : Cont) (xs : GoString) :
    ∀ (ys : GoString) (pos : Nat) (cap : Cap), (∀ c ∈ xs, a.ok c = true) →
      (k (pos + xs.length) ys cap).isSome → (starL a k pos (xs ++ ys) cap).isSome := by
  induction xs with
  | nil =>
    intro ys pos cap _ h
    have h0 : (k pos ys cap).isSome := by simpa using h
    cases ys with
    | nil => simpa [starL] using h0
    | cons c cs =>
      show (starL a k pos (c :: cs) cap).isSome
      unfold starL
      cases hk : k pos (c :: cs) cap with
      | some r1 => simp
      | none => rw [hk] at h0; simp at h0
  | cons x xs ih =>
    intro ys pos cap hall h
    have hx : a.ok x = true := hall x (by simp)
    have hrec : (starL a k (pos + 1) (xs ++ ys) cap).isSome := by
      apply ih ys (pos + 1) cap (fun c hc => hall c (by simp [hc]))
      have : pos + 1 + xs.length = pos + (x :: xs).length := by simp; omega
      rw [this]; exact h
    show (starL a k pos (x :: (xs ++ ys)) cap).isSome
    unfold starL
    cases hk : k pos (x :: (xs ++ ys)) cap with
    | some r1 => simp
    | none => simpa [hx] using hrec

theorem atom_sound (a : Atom) (k : Cont) (pos : Nat) (rest : GoString) (cap : Cap)
    (r : Nat × Cap) (h : (Re.atom a).run k pos rest cap = some r) :
    ∃ c cs, rest = c :: cs ∧ a.ok c = true ∧ k (pos + 1) cs cap = some r := by
  cases rest with
  | nil => simp [Re.run] at h
  | cons c cs =>
    by_cases hc : a.ok c = true
    · exact ⟨c, cs, rfl, hc, by simpa [Re.run, hc] using h⟩
    · simp [Re.run, hc] at h

theorem atom_run_cons (a : Atom) (k : Cont) (pos : Nat) (c : Char) (cs : GoString)
    (cap : Cap) (hc : a.ok c = true) :
    (Re.atom a).run k pos (c :: cs) cap = k (pos + 1) cs cap := by
  simp [Re.run, hc]

/-- A character that occurs once splits a text in one way only. -/
theorem split_unique (c : Char) (A : GoString) :
    ∀ (B P Q : GoString), c ∉ A → c ∉ B → A ++ c :: B = P ++ c :: Q → P = A ∧ Q = B := by
  induction A with
  | nil =>
    intro B P Q _ hB h
    cases P with
    | nil => simp at h; exact ⟨rfl, h.symm⟩
    | cons p P =>
      simp at h
      exact absurd (by rw [h.2]; simp) hB
  | cons a A ih =>
    intro B P Q hA hB h
    cases P with
    | nil =>
      simp at h
      exact absurd (by simp [h.1]) hA
    | cons p P =>
      simp at h
      obtain ⟨h1, h2⟩ := ih B P Q (fun hm => hA (by simp [hm])) hB h.2
      exact ⟨by rw [h.1, h1], h2⟩

/-! ## The routing detector on a line -/

theorem routingRe_run (pos : Nat) (rest : GoString) (cap : Cap) :
    routingRe.run accept pos rest cap =
      (Re.atom (.lit ':')).run (starG .dot ((Re.atom (.notLit '[')).run
        (starG .dot (routingGroup.run (Re.eolM.run accept))))) pos rest cap := rfl

theorem routingGroup_run (k : Cont) (pos : Nat) (rest : GoString) (cap : Cap) :
    routingGroup.run k pos rest cap =
      (Re.atom (.lit '[')).run (starL .dot ((Re.atom (.lit ']')).run
        (fun pos' rest' _ => k pos' rest' (some (pos, pos'))))) pos rest cap := rfl

theorem lit_ok (c x : Char) : (Atom.lit c).ok x = true ↔ x = c := by
  simp [Atom.ok]

theorem dot_ok (x : Char) : Atom.dot.ok x = true ↔ x ≠ '\n' := by
  simp [Atom.ok]

theorem notLit_ok (c x : Char) : (Atom.notLit c).ok x = true ↔ x ≠ c := by
  simp [Atom.ok]

/-- Whatever the routing detector matches from a colon on: the group is a
bracketed span that ends where the match ends. -/
theorem routing_sound (p : Nat) (rest : GoString) (r : Nat × Cap)
    (h : routingRe.run accept p (':' :: rest) none = some r) :
    ∃ P xs ys, rest = P ++ '[' :: (xs ++ ']' :: ys) ∧
      r = (p + 1 + P.length + 1 + xs.length + 1,
        some (p + 1 + P.length, p + 1 + P.length + 1 + xs.length + 1)) := by
  rw [routingRe_run] at h
  obtain ⟨c0, cs0, h0, _, g1⟩ := atom_sound _ _ _ _ _ _ h
  obtain ⟨rfl, rfl⟩ := List.cons.inj h0
  obtain ⟨xs1, ys1, rfl, _, g2⟩ := starG_sound _ _ _ _ _ _ g1
  obtain ⟨c1, ys1', rfl, _, g3⟩ := atom_sound _ _ _ _ _ _ g2
  obtain ⟨xs2, ys2, rfl, _, g4⟩ := starG_sound _ _ _ _ _ _ g3
  rw [routingGroup_run] at g4
  obtain ⟨c2, ys3, rfl, hc2, g5⟩ := atom_sound _ _ _ _ _ _ g4
  rw [lit_ok] at hc2
  subst hc2
  obtain ⟨xs3, ys4, rfl, _, g6⟩ := starL_sound _ _ _ _ _ _ g5
  obtain ⟨c3, ys5, rfl, hc3, g7⟩ := atom_sound _ _ _ _ _ _ g6
  rw [lit_ok] at hc3
  subst hc3
  refine ⟨xs1 ++ c1 :: xs2, xs3, ys5, by simp, ?_⟩
  have hpos : p + 1 + (xs1 ++ c1 :: xs2).length = p + 1 + xs1.length + 1 + xs2.length := by
    simp; omega
  rw [hpos]
  cases ys5 with
  | nil =>
    simp only [Re.run, accept, Option.some.injEq] at g7
    exact g7.symm
  | cons y ys =>
    by_cases hy : y = '\n'
    · simp only [Re.run, accept, hy, if_true, Option.some.injEq] at g7
      exact g7.symm
    · simp [Re.run, accept, hy] at g7

/-- The routing detector matches from a colon on when a bracketed span ends the
line and a character other than an opening bracket stands before it. -/
theorem routing_complete (p : Nat) (xs1 : GoString) (c : Char) (xs3 ys : GoString)
    (h1 : ∀ x ∈ xs1, x ≠ '\n') (hc : c ≠ '[') (h3 : ∀ x ∈ xs3, x ≠ '\n')
    (hy : ys = [] ∨ ∃ t, ys = '\n' :: t) :
    (routingRe.run accept p (':' :: (xs1 ++ c :: '[' :: (xs3 ++ ']' :: ys))) none).isSome := by
  rw [routingRe_run, atom_run_cons _ _ _ _ _ _ ((lit_ok _ _).2 rfl)]
  apply starG_complete _ _ _ _ _ _ (fun x hx => (dot_ok x).2 (h1 x hx))
  rw [atom_run_cons _ _ _ _ _ _ ((notLit_ok _ _).2 hc)]
  apply starG_of_cont
  rw [routingGroup_run, atom_run_cons _ _ _ _ _ _ ((lit_ok _ _).2 rfl)]
  apply starL_complete _ _ _ _ _ _ (fun x hx => (dot_ok x).2 (h3 x hx))
  rw [atom_run_cons _ _ _ _ _ _ ((lit_ok _ _).2 rfl)]
  rcases hy with rfl | ⟨t, rfl⟩
  · simp [Re.run, accept]
  · simp [Re.run, accept]

theorem routing_no_colon (pos : Nat) (c : Char) (cs : GoString) (hc : c ≠ ':') :
    routingRe.run accept pos (c :: cs) none = none := by
  rw [routingRe_run]
  simp [Re.run, Atom.ok, hc]

theorem findFrom_routing_skip (pre : GoString) :
    ∀ (pos : Nat) (rest : GoString), ':' ∉ pre →
      findFrom routingRe pos (pre ++ rest) = findFrom routingRe (pos + pre.length) rest := by
  induction pre with
  | nil => intro pos rest _; simp
  | cons c cs ih =>
    intro pos rest h
    have hc : c ≠ ':' := fun e => h (by simp [e])
    have hcs : ':' ∉ cs := fun e => h (by simp [e])
    have hstep : findFrom routingRe pos (c :: (cs ++ rest)) =
        findFrom routingRe (pos + 1) (cs ++ rest) := by
      rw [findFrom, routing_no_colon pos c _ hc]
    show findFrom routingRe pos (c :: (cs ++ rest)) = _
    rw [hstep, ih (pos + 1) rest hcs, List.length_cons, Nat.add_assoc, Nat.add_comm 1]

/-- The routing detector on a line `pre : mid ' ' [tag] \n`: the group is the
bracketed tag. -/
theorem routing_index (pre mid tag : GoString) (hpre : ':' ∉ pre)
    (hmid1 : '[' ∉ mid) (hmid2 : '\n' ∉ mid)
    (htag1 : '[' ∉ tag) (htag2 : ']' ∉ tag) (htag3 : '\n' ∉ tag) :
    ∃ e0, FindStringSubmatchIndex routingRe
        (pre ++ ':' :: (mid ++ ' ' :: '[' :: (tag ++ [']', '\n']))) =
      [pre.length, e0, pre.length + 1 + mid.length + 1,
        pre.length + 1 + mid.length + 1 + 1 + tag.length + 1] := by
  have hsome := routing_complete pre.length mid ' ' tag ['\n']
    (fun x hx e => hmid2 (e ▸ hx)) (by decide) (fun x hx e => htag3 (e ▸ hx))
    (Or.inr ⟨[], rfl⟩)
  obtain ⟨r, hr⟩ := Option.isSome_iff_exists.1 hsome
  obtain ⟨P, xs, ys, hsplit, hres⟩ := routing_sound _ _ _ hr
  have hA : mid ++ ' ' :: '[' :: (tag ++ [']', '\n']) =
      (mid ++ [' ']) ++ '[' :: (tag ++ [']', '\n']) := by simp
  rw [hA] at hsplit
  have hu := split_unique '[' (mid ++ [' ']) (tag ++ [']', '\n']) P (xs ++ ']' :: ys)
    (by simp [hmid1]) (by simp [htag1]) hsplit
  obtain ⟨hP, hQ⟩ := hu
  have hB : tag ++ [']', '\n'] = tag ++ ']' :: ['\n'] := by simp
  have hv := split_unique ']' tag ['\n'] xs ys htag2 (by simp) (by rw [← hB]; exact hQ.symm)
  obtain ⟨hxs, _⟩ := hv
  subst hP hxs
  refine ⟨r.1, ?_⟩
  unfold FindStringSubmatchIndex
  have hfind : findFrom routingRe 0 (pre ++ ':' :: (mid ++ ' ' :: '[' :: (xs ++ [']', '\n']))) =
      some (pre.length, r.1, r.2) := by
    rw [findFrom_routing_skip pre 0 _ hpre]
    unfold findFrom
    simp only [Nat.zero_add]
    rw [hr]
  rw [hfind, hres]
  simp
  omega

/-! ## The severity detector on a line -/

theorem severity_match (S : GoString) (hS : S ∈ severityNames) (rest : GoString) :
    FindStringSubmatch severityRe ('[' :: (S ++ ']' :: rest)) = ['[' :: (S ++ [']']), S] := by
  simp only [severityNames, List.mem_cons, List.mem_singleton, List.not_mem_nil, or_false] at hS
  rcases hS with rfl | rfl | rfl | rfl | rfl <;> rfl

theorem severity_no_colon (S : GoString) (hS : S ∈ severityNames) : ':' ∉ S := by
  simp only [severityNames, List.mem_cons, List.mem_singleton, List.not_mem_nil, or_false] at hS
  rcases hS with rfl | rfl | rfl | rfl | rfl <;> decide

/-- The first occurrence of a character splits a text. -/
theorem split_first (c : Char) (l : GoString) (h : c ∈ l) :
    ∃ a b, l = a ++ c :: b ∧ c ∉ a := by
  induction l with
  | nil => simp at h
  | cons x xs ih =>
    by_cases hx : x = c
    · exact ⟨[], xs, by simp [hx], by simp⟩
    · have hc : c ∈ xs := by
        rcases List.mem_cons.1 h with e | e
        · exact absurd e.symm hx
        · exact e
      obtain ⟨a, b, hab, hna⟩ := ih hc
      refine ⟨x :: a, b, by simp [hab], ?_⟩
      intro hm
      rcases List.mem_cons.1 hm with e | e
      · exact hx e.symm
      · exact hna e

theorem take_append_length (X Y : GoString) : (X ++ Y).take X.length = X := by
  simp

theorem drop_append_length (X Y : GoString) : (X ++ Y).drop X.length = Y := by
  simp

theorem slice_middle (X Y Z : GoString) :
    slice (X ++ (Y ++ Z)) X.length (X.length + Y.length) = Y := by
  unfold slice
  have h : (X ++ (Y ++ Z)).take (X.length + Y.length) = X ++ Y := by
    rw [← List.append_assoc, ← List.length_append, take_append_length]
  rw [h, drop_append_length]

/-! ## `Write` on a terminal -/

theorem reset_eq : reset = [ESC, '[', '0'] ++ ['m'] := rfl

/-- The terminal branch of `Write`, once both detectors have answered. -/
theorem Write_terminal_eq (w : consoleLogWriter) (hw : w.isTerminal = true) (s : GoString)
    (m0 e0 b e : Nat) (hidx : FindStringSubmatchIndex w.routingDetector s = [m0, e0, b, e])
    (whole S : GoString)
    (hsev : FindStringSubmatch w.severityDetector
      (s.take b ++ NewBrush "Custom".toList (slice s b e) ++ s.drop e) = [whole, S]) :
    w.Write s =
      (⟨w.logger, NewBrush S (s.take b ++ NewBrush "Custom".toList (slice s b e) ++ s.drop e)⟩,
        none) := by
  unfold consoleLogWriter.Write
  simp only [hw, hidx, if_true, List.length_cons, List.length_nil, Nat.reduceAdd,
    List.getD_cons_succ, List.getD_cons_zero, hsev, ge_iff_le, Nat.reduceLeDiff]

/-- The output of `Write` on a terminal for a line with a severity tag, a colon
in its body and a bracketed tag before the newline. -/
theorem Write_terminal_core (w : consoleLogWriter) (hw : w.isTerminal = true)
    (hr : w.routingDetector = routingRe) (hs : w.severityDetector = severityRe)
    (S body tag : GoString) (hS : S ∈ severityNames)
    (hcolon : ':' ∈ body) (hb1 : '[' ∉ body) (hb3 : '\n' ∉ body)
    (ht1 : '[' ∉ tag) (ht2 : ']' ∉ tag) (ht3 : '\n' ∉ tag) :
    w.Write (['['] ++ S ++ [']', ' '] ++ body ++ [' ', '['] ++ tag ++ [']'] ++ ['\n']) =
      (⟨w.logger, colours S ++ ['['] ++ S ++ [']', ' '] ++ body ++ [' '] ++
        colours "Custom".toList ++ ['['] ++ tag ++ [']'] ++ reset ++ reset ++ ['\n']⟩, none) := by
  obtain ⟨b1, mid, rfl, hb1c⟩ := split_first ':' body hcolon
  have hmid1 : '[' ∉ mid := fun h => hb1 (by simp [h])
  have hmid3 : '\n' ∉ mid := fun h => hb3 (by simp [h])
  have hpre : ':' ∉ '[' :: (S ++ ']' :: ' ' :: b1) := by
    have := severity_no_colon S hS
    simp [this, hb1c]
  obtain ⟨e0, hidx⟩ := routing_index ('[' :: (S ++ ']' :: ' ' :: b1)) mid tag hpre
    hmid1 hmid3 ht1 ht2 ht3
  have hline : ['['] ++ S ++ [']', ' '] ++ (b1 ++ ':' :: mid) ++ [' ', '['] ++ tag ++ [']'] ++
      ['\n'] = ('[' :: (S ++ ']' :: ' ' :: b1)) ++ ':' :: (mid ++ ' ' :: '[' :: (tag ++ [']', '\n']))
      := by simp
  have hXYZ : ('[' :: (S ++ ']' :: ' ' :: b1)) ++ ':' :: (mid ++ ' ' :: '[' :: (tag ++ [']', '\n']))
      = ('[' :: (S ++ ']' :: ' ' :: b1) ++ ':' :: (mid ++ [' '])) ++
        (('[' :: (tag ++ [']'])) ++ ['\n']) := by simp
  have hb : ('[' :: (S ++ ']' :: ' ' :: b1)).length + 1 + mid.length + 1 =
      ('[' :: (S ++ ']' :: ' ' :: b1) ++ ':' :: (mid ++ [' '])).length := by
    simp; omega
  have he : ('[' :: (S ++ ']' :: ' ' :: b1)).length + 1 + mid.length + 1 + 1 + tag.length + 1 =
      ('[' :: (S ++ ']' :: ' ' :: b1) ++ ':' :: (mid ++ [' '])).length +
        ('[' :: (tag ++ [']'])).length := by
    simp; omega
  rw [← hr, he, hb, hXYZ] at hidx
  have hline2 : ['['] ++ S ++ [']', ' '] ++ (b1 ++ ':' :: mid) ++ [' ', '['] ++ tag ++ [']'] ++
      ['\n'] = ('[' :: (S ++ ']' :: ' ' :: b1) ++ ':' :: (mid ++ [' '])) ++
        (('[' :: (tag ++ [']'])) ++ ['\n']) := hline.trans hXYZ
  have htake := take_append_length ('[' :: (S ++ ']' :: ' ' :: b1) ++ ':' :: (mid ++ [' ']))
    (('[' :: (tag ++ [']'])) ++ ['\n'])
  have hslice := slice_middle ('[' :: (S ++ ']' :: ' ' :: b1) ++ ':' :: (mid ++ [' ']))
    ('[' :: (tag ++ [']'])) ['\n']
  have hdrop : (('[' :: (S ++ ']' :: ' ' :: b1) ++ ':' :: (mid ++ [' '])) ++
        (('[' :: (tag ++ [']'])) ++ ['\n'])).drop
      (('[' :: (S ++ ']' :: ' ' :: b1) ++ ':' :: (mid ++ [' '])).length +
        ('[' :: (tag ++ [']'])).length) = ['\n'] := by
    rw [← List.append_assoc, ← List.length_append, drop_append_length]
  rw [hline2]
  have hbrush : NewBrush "Custom".toList ('[' :: (tag ++ [']'])) =
      colours "Custom".toList ++ '[' :: (tag ++ [']']) ++ reset := by
    apply NewBrush_plain
    · simp
    · have : '[' :: (tag ++ [']']) = ('[' :: tag) ++ [']'] := by simp
      rw [this, List.getLast?_append]
      simp
  have hsev : FindStringSubmatch w.severityDetector
      (('[' :: (S ++ ']' :: ' ' :: b1) ++ ':' :: (mid ++ [' '])) ++
        NewBrush "Custom".toList ('[' :: (tag ++ [']'])) ++ ['\n']) =
      ['[' :: (S ++ [']']), S] := by
    rw [hs]
    have := severity_match S hS (' ' :: b1 ++ ':' :: (mid ++ [' ']) ++
      NewBrush "Custom".toList ('[' :: (tag ++ [']'])) ++ ['\n'])
    rw [← this]
    congr 1
    simp
  have hW := Write_terminal_eq w hw _ _ _ _ _ hidx ('[' :: (S ++ [']'])) S
    (by rw [htake, hslice, hdrop]; exact hsev)
  rw [hW, htake, hslice, hdrop, hbrush]
  have hlast : (('[' :: (S ++ ']' :: ' ' :: b1) ++ ':' :: (mid ++ [' '])) ++
      (colours "Custom".toList ++ '[' :: (tag ++ [']']) ++ reset)).getLast? ≠ some '\r' := by
    rw [reset_eq, ← List.append_assoc, ← List.append_assoc, List.getLast?_append]
    simp
  rw [NewBrush_lf S _ hlast]
  simp

/-! ## The dispatcher: one permit, one task -/

theorem countP_set_alive (ts : List Task) :
    ∀ (i : Nat) (t t' : Task), ts[i]? = some t →
      (ts.set i t').countP Task.alive + (if t.alive then 1 else 0) =
        ts.countP Task.alive + (if t'.alive then 1 else 0) := by
  induction ts with
  | nil => intro i t t' h; simp at h
  | cons x xs ih =>
    intro i t t' h
    cases i with
    | zero =>
      simp at h
      subst h
      simp only [List.set_cons_zero, List.countP_cons]
      omega
    | succ j =>
      simp at h
      have := ih j t t' h
      simp only [List.set_cons_succ, List.countP_cons]
      omega

theorem Inv_send (l : generalLogger) (msg : Message) (h : Inv l) : Inv (l.send msg) := by
  unfold generalLogger.send
  split <;> exact h

theorem Inv_acquire (l : generalLogger) (h : Inv l) : Inv l.acquire := by
  unfold generalLogger.acquire
  unfold Inv live at *
  split
  · simp only [List.countP_append, List.countP_cons, List.countP_nil, Task.alive]
    simp
    omega
  · exact h

theorem Inv_exit (l : generalLogger) (i : Nat) (t : Task) (w : List GoString) (c : Bool)
    (ht : l.tasks[i]? = some t) (ha : t.alive = true) (h : Inv l) : Inv (l.exit i w c) := by
  unfold Inv live at *
  have := countP_set_alive l.tasks i t (Task.exited w c) ht
  have e : (Task.exited w c).alive = false := rfl
  rw [ha, e] at this
  simp only [if_true, Bool.false_eq_true, if_false] at this
  simp only [generalLogger.exit]
  omega

theorem Inv_set_alive (l : generalLogger) (i : Nat) (t t' : Task)
    (ht : l.tasks[i]? = some t) (ha : t.alive = true) (ha' : t'.alive = true) (h : Inv l) :
    Inv { l with tasks := l.tasks.set i t' } := by
  unfold Inv live at *
  have := countP_set_alive l.tasks i t t' ht
  rw [ha, ha'] at this
  simp only [if_true] at this
  simp only
  omega

theorem Inv_runStart (l : generalLogger) (i : Nat) (sink : Bool) (h : Inv l) :
    Inv (l.runStart i sink) := by
  unfold generalLogger.runStart
  split
  · rename_i ht
    have h' : Inv { l with creatorCalls := l.creatorCalls + 1 } := h
    cases sink with
    | true =>
      exact Inv_set_alive { l with creatorCalls := l.creatorCalls + 1 } i Task.started _ ht rfl rfl h'
    | false =>
      exact Inv_exit { l with creatorCalls := l.creatorCalls + 1 } i Task.started _ _ ht rfl h'
  · exact h

theorem Inv_onDone (l : generalLogger) (i : Nat) (h : Inv l) : Inv (l.onDone i) := by
  unfold generalLogger.onDone
  split
  · rename_i dw w ht
    split
    · exact Inv_exit l i _ _ _ ht rfl h
    · exact h
  · exact h

theorem Inv_onMsg (sep : GoString) (l : generalLogger) (i : Nat) (h : Inv l) :
    Inv (l.onMsg sep i) := by
  unfold generalLogger.onMsg
  split
  · rename_i dw w ht
    split
    · rename_i msg rest hb
      have h' : Inv { l with buffer := rest } := h
      exact Inv_set_alive { l with buffer := rest } i _ _ ht rfl rfl h'
    · exact h
  · exact h

theorem Inv_onTick (l : generalLogger) (i : Nat) (h : Inv l) : Inv (l.onTick i) := by
  unfold generalLogger.onTick
  split
  · rename_i dw w ht
    split
    · exact Inv_exit l i _ _ _ ht rfl h
    · exact Inv_set_alive l i _ _ ht rfl rfl h
  · exact h

theorem Inv_step (sep : GoString) (l : generalLogger) (a : Action) (h : Inv l) :
    Inv (step sep l a) := by
  cases a with
  | handle msg => exact Inv_acquire _ (Inv_send l msg h)
  | send msg => exact Inv_send l msg h
  | acquire => exact Inv_acquire l h
  | create i sink => exact Inv_runStart l i sink h
  | onDone i => exact Inv_onDone l i h
  | onMsg i => exact Inv_onMsg sep l i h
  | onTick i => exact Inv_onTick l i h
  | close => exact h

theorem Inv_exec (sep : GoString) (acts : List Action) :
    ∀ l : generalLogger, Inv l → Inv (exec sep l acts) := by
  induction acts with
  | nil => intro l h; exact h
  | cons a as ih => intro l h; exact ih _ (Inv_step sep l a h)

theorem Inv_NewLogger : Inv NewLogger := by
  simp [Inv, live, NewLogger, semaphoreNew]

theorem getElem?_set_same (ts : List Task) (i : Nat) (t t' : Task) (h : ts[i]? = some t) :
    (ts.set i t')[i]? = some t' := by
  obtain ⟨hi, _⟩ := List.getElem?_eq_some.1 h
  rw [List.getElem?_set]
  simp [hi]

theorem Handle_eq_of_no_permit (l : generalLogger) (msg : Message) (h : l.access = 0) :
    l.Handle msg = l.send msg := by
  have : (l.send msg).access = 0 := by
    unfold generalLogger.send; split <;> simp [h]
  simp [generalLogger.Handle, generalLogger.acquire, this]

theorem send_tasks (l : generalLogger) (msg : Message) : (l.send msg).tasks = l.tasks := by
  unfold generalLogger.send
  split <;> rfl

theorem Handle_buffer_eq (l : generalLogger) (msg : Message) :
    (l.Handle msg).buffer = (l.send msg).buffer := by
  unfold generalLogger.Handle generalLogger.acquire
  split <;> rfl

theorem acquire_tasks_get (l : generalLogger) (i : Nat) (t : Task) (h : l.tasks[i]? = some t) :
    l.acquire.tasks[i]? = some t := by
  obtain ⟨hi, _⟩ := List.getElem?_eq_some.1 h
  unfold generalLogger.acquire
  split
  · simp only
    rw [List.getElem?_append_left hi, h]
  · exact h

theorem sinceTick_some (w1 : List GoString) (o : Option Task) (h : sinceTick w1 o) :
    ∃ t, o = some t ∧ t ≠ Task.started := by
  cases o with
  | none => exact absurd h (by simp [sinceTick])
  | some t =>
    cases t with
    | started => exact absurd h (by simp [sinceTick])
    | looping dw w => exact ⟨_, rfl, by simp⟩
    | exited w c => exact ⟨_, rfl, by simp⟩

theorem sinceTick_step (sep : GoString) (w1 : List GoString) (i : Nat) (l : generalLogger)
    (a : Action) (h : sinceTick w1 l.tasks[i]?) (ha : a ≠ Action.onTick i) :
    sinceTick w1 (step sep l a).tasks[i]? := by
  obtain ⟨t, ht, hns⟩ := sinceTick_some w1 _ h
  cases a with
  | handle msg =>
    have h1 : (l.send msg).tasks[i]? = some t := by rw [send_tasks]; exact ht
    have := acquire_tasks_get (l.send msg) i t h1
    show sinceTick w1 ((l.send msg).acquire).tasks[i]?
    rw [this, ← ht]; exact h
  | send msg =>
    show sinceTick w1 (l.send msg).tasks[i]?
    rw [send_tasks]; exact h
  | acquire =>
    show sinceTick w1 l.acquire.tasks[i]?
    rw [acquire_tasks_get l i t ht, ← ht]; exact h
  | close => exact h
  | create j sink =>
    show sinceTick w1 (l.runStart j sink).tasks[i]?
    unfold generalLogger.runStart
    split
    · rename_i hj
      have hji : j ≠ i := by
        rintro rfl
        rw [ht] at hj
        exact hns (Option.some.inj hj)
      cases sink with
      | true =>
        simp only [if_true]
        rw [List.getElem?_set_ne hji]; exact h
      | false =>
        simp only [Bool.false_eq_true, if_false, generalLogger.exit]
        rw [List.getElem?_set_ne hji]; exact h
    · exact h
  | onDone j =>
    show sinceTick w1 (l.onDone j).tasks[i]?
    unfold generalLogger.onDone
    split
    · rename_i dw w hj
      split
      · by_cases hji : j = i
        · subst hji
          simp only [generalLogger.exit]
          rw [getElem?_set_same _ _ _ _ hj]
          simp [sinceTick]
        · simp only [generalLogger.exit]
          rw [List.getElem?_set_ne hji]; exact h
      · exact h
    · exact h
  | onMsg j =>
    show sinceTick w1 (l.onMsg sep j).tasks[i]?
    unfold generalLogger.onMsg
    split
    · rename_i dw w hj
      split
      · rename_i msg rest hb
        by_cases hji : j = i
        · subst hji
          simp only
          rw [getElem?_set_same _ _ _ _ hj]
          rw [hj] at h
          obtain ⟨extra, he, _⟩ := h
          exact ⟨extra ++ [lineOf sep msg], by simp [he], by simp⟩
        · simp only
          rw [List.getElem?_set_ne hji]; exact h
      · exact h
    · exact h
  | onTick j =>
    have hji : j ≠ i := fun e => ha (by rw [e])
    show sinceTick w1 (l.onTick j).tasks[i]?
    unfold generalLogger.onTick
    split
    · rename_i dw w hj
      split
      · simp only [generalLogger.exit]
        rw [List.getElem?_set_ne hji]; exact h
      · simp only
        rw [List.getElem?_set_ne hji]; exact h
    · exact h

theorem sinceTick_exec (sep : GoString) (w1 : List GoString) (i : Nat) (acts : List Action) :
    ∀ l : generalLogger, sinceTick w1 l.tasks[i]? → (∀ a ∈ acts, a ≠ Action.onTick i) →
      sinceTick w1 (exec sep l acts).tasks[i]? := by
  induction acts with
  | nil => intro l h _; exact h
  | cons a as ih =>
    intro l h hall
    exact ih _ (sinceTick_step sep w1 i l a h (hall a (by simp)))
      (fun b hb => hall b (by simp [hb]))

/-- Right after its start with a writer, or after a tick it survives, a task
loops with `dataWritten` clear. -/
theorem flag_clear_after (sep : GoString) (l : generalLogger) (i : Nat) (a : Action)
    (ha : (a = Action.create i true ∧ l.tasks[i]? = some Task.started) ∨
      (a = Action.onTick i ∧ ∃ dw0 w0, l.tasks[i]? = some (Task.looping dw0 w0)))
    (dw : Bool) (w : List GoString)
    (h : (step sep l a).tasks[i]? = some (Task.looping dw w)) : dw = false := by
  rcases ha with ⟨rfl, ht⟩ | ⟨rfl, dw0, w0, ht⟩
  · simp only [step, generalLogger.runStart, ht, if_true] at h
    rw [getElem?_set_same _ _ _ _ ht] at h
    simp at h
    exact h.1
  · simp only [step, generalLogger.onTick, ht] at h
    cases dw0 with
    | false =>
      simp only [Bool.not_false, if_true, generalLogger.exit] at h
      rw [getElem?_set_same _ _ _ _ ht] at h
      simp at h
    | true =>
      simp only [Bool.not_true, Bool.false_eq_true, if_false] at h
      rw [getElem?_set_same _ _ _ _ ht] at h
      simp at h
      exact h.1

theorem Handle_spawns (l : generalLogger) (msg : Message) (h : 0 < l.access) :
    (l.Handle msg).tasks = l.tasks ++ [Task.started] ∧ (l.Handle msg).access = l.access - 1 := by
  have h1 : (l.send msg).access = l.access := by
    unfold generalLogger.send; split <;> rfl
  simp only [generalLogger.Handle, generalLogger.acquire, send_tasks, h1, if_pos h]
  simp

theorem Handle_no_spawn (l : generalLogger) (msg : Message) (h : l.access = 0) :
    (l.Handle msg).tasks = l.tasks ∧ (l.Handle msg).access = 0 := by
  rw [Handle_eq_of_no_permit l msg h, send_tasks]
  refine ⟨rfl, ?_⟩
  unfold generalLogger.send; split <;> exact h

theorem Inv_reachable (sep : GoString) (acts : List Action) : Inv (exec sep NewLogger acts) :=
  Inv_exec sep acts NewLogger Inv_NewLogger

theorem runStart_started (l : generalLogger) (i : Nat) (sink : Bool)
    (h : l.tasks[i]? = some Task.started) :
    l.runStart i sink =
      if sink then
        { l with tasks := l.tasks.set i (Task.looping false []),
                 creatorCalls := l.creatorCalls + 1 }
      else
        { l with access := l.access + 1, tasks := l.tasks.set i (Task.exited [] false),
                 creatorCalls := l.creatorCalls + 1 } := by
  cases sink <;> simp [generalLogger.runStart, h, generalLogger.exit]

theorem Handle_creatorCalls (l : generalLogger) (msg : Message) :
    (l.Handle msg).creatorCalls = l.creatorCalls := by
  unfold generalLogger.Handle generalLogger.acquire generalLogger.send
  split <;> split <;> rfl

theorem writtenBy_set (ts : List Task) (i j : Nat) (t t' : Task) (h : ts[i]? = some t)
    (hw : t'.written = t.written) :
    (match (ts.set i t')[j]? with | some u => u.written | none => []) =
      (match ts[j]? with | some u => u.written | none => []) := by
  by_cases hij : i = j
  · subst hij
    rw [getElem?_set_same _ _ _ _ h, h]
    exact hw
  · rw [List.getElem?_set_ne hij]

/-! ## The dispatcher: the returns of a task and the permit -/

/-- A task that has returned stays as it is. -/
theorem exited_stays (sep : GoString) (l : generalLogger) (a : Action) (i : Nat)
    (w : List GoString) (c : Bool) (h : l.tasks[i]? = some (Task.exited w c)) :
    (step sep l a).tasks[i]? = some (Task.exited w c) := by
  have hne : ∀ j t, l.tasks[j]? = some t → t.alive = true → j ≠ i := by
    rintro j t hj ha rfl
    rw [h] at hj
    have := Option.some.inj hj
    subst this
    simp [Task.alive] at ha
  cases a with
  | handle msg =>
    show ((l.send msg).acquire).tasks[i]? = _
    exact acquire_tasks_get (l.send msg) i _ (by rw [send_tasks]; exact h)
  | send msg =>
    show (l.send msg).tasks[i]? = _
    rw [send_tasks]; exact h
  | acquire => exact acquire_tasks_get l i _ h
  | close => exact h
  | create j sink =>
    show (l.runStart j sink).tasks[i]? = _
    unfold generalLogger.runStart
    split
    · rename_i hj
      have hji := hne j _ hj rfl
      cases sink with
      | true =>
        simp only [if_true]
        rw [List.getElem?_set_ne hji]; exact h
      | false =>
        simp only [Bool.false_eq_true, if_false, generalLogger.exit]
        rw [List.getElem?_set_ne hji]; exact h
    · exact h
  | onDone j =>
    show (l.onDone j).tasks[i]? = _
    unfold generalLogger.onDone
    split
    · rename_i dw w0 hj
      have hji := hne j _ hj rfl
      split
      · simp only [generalLogger.exit]
        rw [List.getElem?_set_ne hji]; exact h
      · exact h
    · exact h
  | onMsg j =>
    show (l.onMsg sep j).tasks[i]? = _
    unfold generalLogger.onMsg
    split
    · rename_i dw w0 hj
      have hji := hne j _ hj rfl
      split
      · simp only
        rw [List.getElem?_set_ne hji]; exact h
      · exact h
    · exact h
  | onTick j =>
    show (l.onTick j).tasks[i]? = _
    unfold generalLogger.onTick
    split
    · rename_i dw w0 hj
      have hji := hne j _ hj rfl
      split
      · simp only [generalLogger.exit]
        rw [List.getElem?_set_ne hji]; exact h
      · simp only
        rw [List.getElem?_set_ne hji]; exact h
    · exact h

theorem exit_spec (l : generalLogger) (i : Nat) (t : Task) (w : List GoString) (c : Bool)
    (ht : l.tasks[i]? = some t) :
    (l.exit i w c).tasks[i]? = some (Task.exited w c) ∧ (l.exit i w c).access = l.access + 1 :=
  ⟨getElem?_set_same _ _ _ _ ht, rfl⟩

/-- A permit comes back only in a step in which a running task returns, and one
permit at a time. -/
theorem access_rise (sep : GoString) (l : generalLogger) (a : Action) :
    (step sep l a).access ≤ l.access + 1 ∧
    ((step sep l a).access = l.access + 1 →
      ∃ (i : Nat) (t : Task) (w : List GoString) (c : Bool),
        l.tasks[i]? = some t ∧ t.alive = true ∧
          (step sep l a).tasks[i]? = some (Task.exited w c)) := by
  have hsend : ∀ msg, (l.send msg).access = l.access := by
    intro msg; unfold generalLogger.send; split <;> rfl
  have hacq : ∀ l0 : generalLogger, l0.acquire.access ≤ l0.access ∧
      (0 < l0.access → l0.acquire.access + 1 = l0.access) := by
    intro l0
    unfold generalLogger.acquire
    split
    · rename_i hp
      exact ⟨by simp, fun _ => by simp; omega⟩
    · rename_i hp
      exact ⟨le_refl _, fun h => absurd h hp⟩
  cases a with
  | handle msg =>
    have h1 := (hacq (l.send msg)).1
    rw [hsend] at h1
    simp only [step, generalLogger.Handle]
    exact ⟨by omega, fun h => by omega⟩
  | send msg =>
    simp only [step]
    rw [hsend]
    exact ⟨by omega, fun h => by omega⟩
  | acquire =>
    have h1 := (hacq l).1
    simp only [step]
    exact ⟨by omega, fun h => by omega⟩
  | close =>
    simp only [step]
    exact ⟨by simp [generalLogger.Close], fun h => by simp [generalLogger.Close] at h⟩
  | create j sink =>
    simp only [step]
    unfold generalLogger.runStart
    split
    · rename_i hj
      cases sink with
      | true =>
        simp only [if_true]
        exact ⟨by omega, fun h => by omega⟩
      | false =>
        simp only [Bool.false_eq_true, if_false]
        exact ⟨le_refl _, fun _ => ⟨j, _, [], false, hj, rfl, getElem?_set_same _ _ _ _ hj⟩⟩
    · exact ⟨by omega, fun h => by omega⟩
  | onDone j =>
    simp only [step]
    unfold generalLogger.onDone
    split
    · rename_i dw w0 hj
      split
      · exact ⟨le_refl _, fun _ => ⟨j, _, w0, true, hj, rfl, getElem?_set_same _ _ _ _ hj⟩⟩
      · exact ⟨by omega, fun h => by omega⟩
    · exact ⟨by omega, fun h => by omega⟩
  | onMsg j =>
    simp only [step]
    unfold generalLogger.onMsg
    split
    · split
      · exact ⟨by simp, fun h => by simp at h⟩
      · exact ⟨by omega, fun h => by omega⟩
    · exact ⟨by omega, fun h => by omega⟩
  | onTick j =>
    simp only [step]
    unfold generalLogger.onTick
    split
    · rename_i dw w0 hj
      split
      · exact ⟨le_refl _, fun _ => ⟨j, _, w0, true, hj, rfl, getElem?_set_same _ _ _ _ hj⟩⟩
      · exact ⟨by simp, fun h => by simp at h⟩
    · exact ⟨by omega, fun h => by omega⟩

/-- C1: in every state `l` reachable from a fresh dispatcher (`NewLogger`) by any
sequence of `Handle` calls (whole, or their two `select`s apart), task starts,
`select` outcomes of the tasks and `Close` calls, the tasks that have not
returned and the permits in the semaphore are one in all, so at most one drain
task holds the permit and has not returned.  `Handle` starts a task exactly when
it takes the permit.  On each of its three return paths (the creator gives no
sink, a tick with `dataWritten` clear, the done signal closed by `Close`) the task
is marked as returned and one permit goes back.  A permit goes back only in a
step in which a running task returns, and a task that has returned never
changes again, so every task gives its permit back exactly once. -/
theorem C1_single_drain_task (sep : GoString) (acts : List Action) (msg : Message)
    (l : generalLogger) (hl : l = exec sep NewLogger acts) :
    live l + l.access = 1 ∧
    live l ≤ 1 ∧
    (l.access = 0 → (l.Handle msg).tasks = l.tasks ∧ (l.Handle msg).access = 0) ∧
    (0 < l.access →
      (l.Handle msg).tasks = l.tasks ++ [Task.started] ∧ (l.Handle msg).access = 0) ∧
    (∀ i, l.tasks[i]? = some Task.started →
      (step sep l (Action.create i false)).tasks[i]? = some (Task.exited [] false) ∧
        (step sep l (Action.create i false)).access = l.access + 1 ∧
        live (step sep l (Action.create i false)) + 1 = live l) ∧
    (∀ i w, l.tasks[i]? = some (Task.looping false w) →
      (step sep l (Action.onTick i)).tasks[i]? = some (Task.exited w true) ∧
        (step sep l (Action.onTick i)).access = l.access + 1 ∧
        live (step sep l (Action.onTick i)) + 1 = live l) ∧
    (∀ i dw w, l.tasks[i]? = some (Task.looping dw w) →
      (step sep (step sep l Action.close) (Action.onDone i)).tasks[i]?
          = some (Task.exited w true) ∧
        (step sep (step sep l Action.close) (Action.onDone i)).access = l.access + 1 ∧
        live (step sep (step sep l Action.close) (Action.onDone i)) + 1 = live l) ∧
    (∀ a : Action, (step sep l a).access ≤ l.access + 1 ∧
      ((step sep l a).access = l.access + 1 →
        ∃ (i : Nat) (t : Task) (w : List GoString) (c : Bool),
          l.tasks[i]? = some t ∧ t.alive = true ∧
            (step sep l a).tasks[i]? = some (Task.exited w c))) ∧
    (∀ (a : Action) (i : Nat) (w : List GoString) (c : Bool),
      l.tasks[i]? = some (Task.exited w c) →
      (step sep l a).tasks[i]? = some (Task.exited w c)) := by
  have hI : Inv l := by rw [hl]; exact Inv_reachable sep acts
  have hI' := hI
  unfold Inv at hI'
  have hlive : ∀ a k, (step sep l a).access = k + 1 → l.access = k →
      live (step sep l a) + 1 = live l := by
    intro a k h1 h2
    have := Inv_step sep l a hI
    unfold Inv at this
    omega
  refine ⟨hI', by omega, fun h => Handle_no_spawn _ msg h, fun h => ?_, fun i hi => ?_,
    fun i w hi => ?_, fun i dw w hi => ?_, fun a => access_rise sep l a,
    fun a i w c h => exited_stays sep l a i w c h⟩
  · obtain ⟨h1, h2⟩ := Handle_spawns _ msg h
    exact ⟨h1, by omega⟩
  · have he : step sep l (Action.create i false) =
        { l with
          access := l.access + 1
          tasks := l.tasks.set i (Task.exited [] false)
          creatorCalls := l.creatorCalls + 1 } := by
      show l.runStart i false = _
      rw [runStart_started l i false hi]
      simp
    have hacc : (step sep l (Action.create i false)).access = l.access + 1 := by rw [he]
    refine ⟨?_, hacc, hlive _ _ hacc rfl⟩
    rw [he]; exact getElem?_set_same _ _ _ _ hi
  · have he : step sep l (Action.onTick i) = l.exit i w true := by
      simp [step, generalLogger.onTick, hi]
    have hacc : (step sep l (Action.onTick i)).access = l.access + 1 := by rw [he]; rfl
    refine ⟨?_, hacc, hlive _ _ hacc rfl⟩
    rw [he]; exact getElem?_set_same _ _ _ _ hi
  · have he : step sep (step sep l Action.close) (Action.onDone i) =
        (l.Close).exit i w true := by
      simp [step, generalLogger.onDone, generalLogger.Close, hi]
    have hacc : (step sep (step sep l Action.close) (Action.onDone i)).access = l.access + 1 := by
      rw [he]; rfl
    refine ⟨?_, hacc, ?_⟩
    · rw [he]; exact getElem?_set_same _ _ _ _ hi
    · have h2 := Inv_step sep _ (Action.onDone i) (Inv_step sep l Action.close hI)
      unfold Inv at h2
      omega

/-- C1, on a run: after two `Handle` calls, a task that writes one message, two
ticks (the second one idle) and a further `Handle`, one task is running; in the
state before the idle tick the tick gives the permit back. -/
theorem C1_single_drain_task_witness :
    live (exec "\n".toList NewLogger
      [Action.handle ⟨"a".toList⟩, Action.handle ⟨"b".toList⟩, Action.create 0 true,
        Action.onMsg 0, Action.onTick 0, Action.onTick 0, Action.handle ⟨"c".toList⟩]) ≤ 1 ∧
    (step "\n".toList (exec "\n".toList NewLogger
      [Action.handle ⟨"a".toList⟩, Action.handle ⟨"b".toList⟩, Action.create 0 true,
        Action.onMsg 0, Action.onTick 0]) (Action.onTick 0)).access = 1 :=
  ⟨(C1_single_drain_task "\n".toList
      [Action.handle ⟨"a".toList⟩, Action.handle ⟨"b".toList⟩, Action.create 0 true,
        Action.onMsg 0, Action.onTick 0, Action.onTick 0, Action.handle ⟨"c".toList⟩]
      ⟨"d".toList⟩ _ rfl).2.1,
    ((C1_single_drain_task "\n".toList
      [Action.handle ⟨"a".toList⟩, Action.handle ⟨"b".toList⟩, Action.create 0 true,
        Action.onMsg 0, Action.onTick 0] ⟨"d".toList⟩ _ rfl).2.2.2.2.2.1 0 ["a\n".toList]
      (by decide)).2.1⟩

/-- C2: `Handle(msg)` is a total function of the dispatcher state (it never
waits and has no error result); with 16 messages in the buffer it leaves the
buffer as it is, so `msg` is dropped, and with fewer than 16 it appends `msg`
at the tail and keeps the queued messages and their order. -/
theorem C2_Handle_buffer (l : generalLogger) (msg : Message) :
    (l.buffer.length = 16 → (l.Handle msg).buffer = l.buffer) ∧
    (l.buffer.length < 16 → (l.Handle msg).buffer = l.buffer ++ [msg]) := by
  rw [Handle_buffer_eq]
  unfold generalLogger.send
  constructor
  · intro h
    rw [if_neg (by omega)]
  · intro h
    rw [if_pos h]

/-- C2, on a fresh dispatcher: the seventeenth message is dropped, the first is
queued. -/
theorem C2_Handle_buffer_witness :
    ((exec [] NewLogger (List.replicate 16 (Action.handle ⟨['x']⟩))).Handle ⟨['y']⟩).buffer =
        (exec [] NewLogger (List.replicate 16 (Action.handle ⟨['x']⟩))).buffer ∧
      (NewLogger.Handle ⟨['y']⟩).buffer = NewLogger.buffer ++ [⟨['y']⟩] :=
  ⟨(C2_Handle_buffer (exec [] NewLogger (List.replicate 16 (Action.handle ⟨['x']⟩)))
      ⟨['y']⟩).1 (by decide),
    (C2_Handle_buffer NewLogger ⟨['y']⟩).2 (by decide)⟩

/-- C4: in a state reachable from a fresh dispatcher, a started task whose
creator returns `nil` returns at once: the buffer is the same before and after,
no task has written anything more and this task has written nothing, the creator
was called once, and the permit is back in the semaphore.  Hence the next
`Handle` call starts a new task, and that task calls the creator again. -/
theorem C4_no_sink (sep : GoString) (acts : List Action) (i : Nat) (msg : Message)
    (l l' : generalLogger) (hl : l = exec sep NewLogger acts)
    (hi : l.tasks[i]? = some Task.started) (hl' : l' = step sep l (Action.create i false)) :
    l'.buffer = l.buffer ∧
    (∀ j, writtenBy l' j = writtenBy l j) ∧
    l'.tasks[i]? = some (Task.exited [] false) ∧
    l'.creatorCalls = l.creatorCalls + 1 ∧
    l'.access = 1 ∧
    (l'.Handle msg).tasks = l'.tasks ++ [Task.started] ∧
    (∀ sink, (step sep (l'.Handle msg) (Action.create l'.tasks.length sink)).creatorCalls
      = l'.creatorCalls + 1) := by
  have hI : Inv l := by rw [hl]; exact Inv_reachable sep acts
  have hI' : Inv l' := by rw [hl']; exact Inv_step sep l _ hI
  have he : l' =
      { l with
        access := l.access + 1
        tasks := l.tasks.set i (Task.exited [] false)
        creatorCalls := l.creatorCalls + 1 } := by
    rw [hl']
    show l.runStart i false = _
    rw [runStart_started l i false hi]
    simp
  have hacc : l'.access = 1 := by
    unfold Inv at hI'
    have : l'.access = l.access + 1 := by rw [he]
    omega
  have hsp := Handle_spawns l' msg (by omega)
  refine ⟨by rw [he], ?_, by rw [he]; exact getElem?_set_same _ _ _ _ hi, by rw [he], hacc,
    hsp.1, ?_⟩
  · intro j
    rw [he]
    exact writtenBy_set l.tasks i j Task.started _ hi rfl
  · intro sink
    have hnew : (l'.Handle msg).tasks[l'.tasks.length]? = some Task.started := by
      rw [hsp.1, List.getElem?_append_right (le_refl _)]
      simp
    show ((l'.Handle msg).runStart l'.tasks.length sink).creatorCalls = _
    rw [runStart_started _ _ sink hnew, ← Handle_creatorCalls l' msg]
    cases sink <;> rfl

/-- C4, on a run: the creator fails for the first task; the message stays
queued and the next `Handle` starts a second task. -/
theorem C4_no_sink_witness :
    (step "\n".toList (exec "\n".toList NewLogger [Action.handle ⟨"a".toList⟩])
        (Action.create 0 false)).buffer = [⟨"a".toList⟩] ∧
    ((step "\n".toList (exec "\n".toList NewLogger [Action.handle ⟨"a".toList⟩])
        (Action.create 0 false)).Handle ⟨"b".toList⟩).tasks
      = [Task.exited [] false, Task.started] :=
  ⟨(C4_no_sink "\n".toList [Action.handle ⟨"a".toList⟩] 0 ⟨"b".toList⟩ _ _ rfl
      (by decide) rfl).1,
    (C4_no_sink "\n".toList [Action.handle ⟨"a".toList⟩] 0 ⟨"b".toList⟩ _ _ rfl
      (by decide) rfl).2.2.2.2.2.1⟩

/-- C5: task `i` of a reachable dispatcher is running right after its start
with a writer or after a tick (`l1`), other steps follow without a tick of task
`i` (`l2`), and the task, still running, takes the next tick (`l3`).  If it has
passed no line to `Write` since `l1` it returns at this tick, its writer closed
and the permit back, so that the next `Handle` starts a new task; otherwise it
stays in the loop with `dataWritten` cleared, and the permit stays taken. -/
theorem C5_idle_tick (sep : GoString) (acts0 acts : List Action) (a0 : Action) (i : Nat)
    (msg : Message) (l0 l1 l2 l3 : generalLogger)
    (h0 : l0 = exec sep NewLogger acts0)
    (hstart : (a0 = Action.create i true ∧ l0.tasks[i]? = some Task.started) ∨
      (a0 = Action.onTick i ∧ ∃ dw0 w0, l0.tasks[i]? = some (Task.looping dw0 w0)))
    (h1 : l1 = step sep l0 a0)
    (hrun1 : ∃ dw w, l1.tasks[i]? = some (Task.looping dw w))
    (hacts : ∀ a ∈ acts, a ≠ Action.onTick i)
    (h2 : l2 = exec sep l1 acts)
    (hrun2 : ∃ dw w, l2.tasks[i]? = some (Task.looping dw w))
    (h3 : l3 = step sep l2 (Action.onTick i)) :
    (writtenBy l2 i = writtenBy l1 i →
      l3.tasks[i]? = some (Task.exited (writtenBy l2 i) true) ∧ l3.access = 1 ∧ live l3 = 0 ∧
        (l3.Handle msg).tasks = l3.tasks ++ [Task.started]) ∧
    (writtenBy l2 i ≠ writtenBy l1 i →
      l3.tasks[i]? = some (Task.looping false (writtenBy l2 i)) ∧ l3.access = 0 ∧
        live l3 = 1) := by
  obtain ⟨dw1, w1, ht1⟩ := hrun1
  obtain ⟨dw2, w2, ht2⟩ := hrun2
  have hdw1 : dw1 = false := flag_clear_after sep l0 i a0 hstart dw1 w1 (h1 ▸ ht1)
  have hQ1 : sinceTick w1 l1.tasks[i]? := by
    rw [ht1]
    exact ⟨[], by simp, by simp [hdw1]⟩
  have hQ2 : sinceTick w1 l2.tasks[i]? := by
    rw [h2]
    exact sinceTick_exec sep w1 i acts l1 hQ1 hacts
  rw [ht2] at hQ2
  obtain ⟨extra, hw2, hflag⟩ := hQ2
  have hwr1 : writtenBy l1 i = w1 := by simp [writtenBy, ht1, Task.written]
  have hwr2 : writtenBy l2 i = w2 := by simp [writtenBy, ht2, Task.written]
  have hI3 : Inv l3 := by
    rw [h3, h2, h1, h0]
    exact Inv_step sep _ _ (Inv_exec sep acts _ (Inv_step sep _ _ (Inv_reachable sep acts0)))
  unfold Inv at hI3
  rw [hwr1, hwr2]
  constructor
  · intro hsame
    have hex : extra = [] := by
      rw [hsame] at hw2
      exact List.self_eq_append_right.1 hw2
    have hdw2 : dw2 = false := by
      cases dw2 with
      | false => rfl
      | true => exact absurd hex (hflag.1 rfl)
    subst hdw2
    have he : l3 = l2.exit i w2 true := by
      rw [h3]
      simp [step, generalLogger.onTick, ht2]
    have hacc : l3.access = l2.access + 1 := by rw [he]; rfl
    have hacc1 : l3.access = 1 := by omega
    refine ⟨?_, hacc1, by omega, (Handle_spawns l3 msg (by omega)).1⟩
    rw [he]
    exact getElem?_set_same _ _ _ _ ht2
  · intro hdiff
    have hex : extra ≠ [] := by
      intro hnil
      apply hdiff
      rw [hw2, hnil, List.append_nil]
    have hdw2 : dw2 = true := hflag.2 hex
    subst hdw2
    have he : l3 = { l2 with tasks := l2.tasks.set i (Task.looping false w2) } := by
      rw [h3]
      simp [step, generalLogger.onTick, ht2]
    have hlive : 1 ≤ live l3 := by
      have hget : l3.tasks[i]? = some (Task.looping false w2) := by
        rw [he]; exact getElem?_set_same _ _ _ _ ht2
      obtain ⟨hi, hgi⟩ := List.getElem?_eq_some.1 hget
      unfold live
      apply List.countP_pos_iff.2
      exact ⟨_, List.getElem_mem hi, by rw [hgi]; rfl⟩
    refine ⟨?_, by omega, by omega⟩
    rw [he]
    exact getElem?_set_same _ _ _ _ ht2

/-- C5, on a run: a task writes one message, survives the first tick, receives
nothing more and returns at the second tick; the next `Handle` starts a task. -/
theorem C5_idle_tick_witness :
    (step "\n".toList (exec "\n".toList NewLogger
        [Action.handle ⟨"a".toList⟩, Action.create 0 true, Action.onMsg 0, Action.onTick 0])
        (Action.onTick 0)).tasks[0]? = some (Task.exited ["a\n".toList] true) ∧
    ((step "\n".toList (exec "\n".toList NewLogger
        [Action.handle ⟨"a".toList⟩, Action.create 0 true, Action.onMsg 0, Action.onTick 0])
        (Action.onTick 0)).Handle ⟨"b".toList⟩).tasks
      = [Task.exited ["a\n".toList] true, Task.started] :=
  have h := (C5_idle_tick "\n".toList
    [Action.handle ⟨"a".toList⟩, Action.create 0 true, Action.onMsg 0] [] (Action.onTick 0) 0
    ⟨"b".toList⟩ _ _ _ _ rfl (Or.inr ⟨rfl, true, ["a\n".toList], by decide⟩) rfl
    ⟨false, ["a\n".toList], by decide⟩ (by simp) rfl ⟨false, ["a\n".toList], by decide⟩ rfl).1
    (by decide)
  ⟨h.1, h.2.2.2⟩

/-- C6: on a terminal, for a line `[S] body [tag]` and a newline, with `S` one
of Unknown, Info, Warning, Debug, Error, a colon in `body`, no bracket or newline
in `body` and none in `tag`, `Write` passes to the printer of its stream the
colour of `S`, the line up to the tag, the colour of Custom, the bracketed tag,
the reset escape twice and the newline, and returns no error. -/
theorem C6_terminal_line (w : Stream) (S body tag : GoString) (hS : S ∈ severityNames)
    (hcolon : ':' ∈ body) (hb1 : '[' ∉ body) (hb2 : ']' ∉ body) (hb3 : '\n' ∉ body)
    (ht1 : '[' ∉ tag) (ht2 : ']' ∉ tag) (ht3 : '\n' ∉ tag) :
    ((newConsoleLogWriter true w).Write
        (['['] ++ S ++ [']', ' '] ++ body ++ [' ', '['] ++ tag ++ [']'] ++ ['\n'])).1.text
      = colours S ++ ['['] ++ S ++ [']', ' '] ++ body ++ [' '] ++
          colours "Custom".toList ++ ['['] ++ tag ++ [']'] ++ reset ++ reset ++ ['\n'] ∧
    ((newConsoleLogWriter true w).Write
        (['['] ++ S ++ [']', ' '] ++ body ++ [' ', '['] ++ tag ++ [']'] ++ ['\n'])).2 = none := by
  have h := Write_terminal_core (newConsoleLogWriter true w) rfl rfl rfl S body tag hS hcolon
    hb1 hb3 ht1 ht2 ht3
  rw [h]
  exact ⟨rfl, rfl⟩

/-- C6, on the line of the claim: `[Error] failed: boom [route1]` and a newline. -/
theorem C6_terminal_line_witness :
    ((newConsoleLogWriter true Stream.Stdout).Write
        "[Error] failed: boom [route1]\n".toList).1.text
      = ESC :: "[31m[Error] failed: boom ".toList ++ ESC :: "[1;33m[route1]".toList ++
          ESC :: "[0m".toList ++ ESC :: "[0m\n".toList :=
  (C6_terminal_line Stream.Stdout "Error".toList "failed: boom".toList "route1".toList
    (by decide) (by decide) (by decide) (by decide) (by decide) (by decide) (by decide)
    (by decide)).1

/-- C7: for each of the six names with its colour code `c`, `NewBrush(name)(s)`
is empty for the empty string; for `s` ending in CRLF it is `c`, the text
before the CRLF, the reset escape and the CRLF; for `s` ending in a newline with
no carriage return before it, `c`, the text before the newline, the reset escape
and the newline; and for any other `s`, `c`, `s` and the reset escape. -/
theorem C7_NewBrush (name c : GoString)
    (hn : (name, c) ∈ [("Unknown".toList, ESC :: "[0m".toList),
      ("Error".toList, ESC :: "[31m".toList), ("Warning".toList, ESC :: "[33m".toList),
      ("Info".toList, ESC :: "[36m".toList), ("Debug".toList, ESC :: "[34m".toList),
      ("Custom".toList, ESC :: "[1;33m".toList)]) (s : GoString) :
    (s = [] → NewBrush name s = []) ∧
    (∀ body, s = body ++ ['\r', '\n'] →
      NewBrush name s = c ++ body ++ ESC :: "[0m".toList ++ ['\r', '\n']) ∧
    (∀ body, s = body ++ ['\n'] → body.getLast? ≠ some '\r' →
      NewBrush name s = c ++ body ++ ESC :: "[0m".toList ++ ['\n']) ∧
    (s ≠ [] → s.getLast? ≠ some '\n' → NewBrush name s = c ++ s ++ ESC :: "[0m".toList) := by
  have hc : colours name = c := by
    simp only [List.mem_cons, List.mem_singleton, List.not_mem_nil, or_false, Prod.mk.injEq]
      at hn
    rcases hn with ⟨rfl, rfl⟩ | ⟨rfl, rfl⟩ | ⟨rfl, rfl⟩ | ⟨rfl, rfl⟩ | ⟨rfl, rfl⟩ | ⟨rfl, rfl⟩ <;>
      rfl
  subst hc
  refine ⟨fun h => by rw [h]; exact NewBrush_nil name, fun body h => ?_, fun body h hb => ?_,
    fun h1 h2 => NewBrush_plain name s h1 h2⟩
  · rw [h]; exact NewBrush_crlf name body
  · rw [h]; exact NewBrush_lf name body hb

/-- C7, on three lines brushed in the colour of Error. -/
theorem C7_NewBrush_witness :
    NewBrush "Error".toList "boom\r\n".toList
        = ESC :: "[31mboom".toList ++ ESC :: "[0m\r\n".toList ∧
      NewBrush "Error".toList "boom\n".toList
        = ESC :: "[31mboom".toList ++ ESC :: "[0m\n".toList ∧
      NewBrush "Error".toList "boom".toList = ESC :: "[31mboom".toList ++ ESC :: "[0m".toList :=
  ⟨(C7_NewBrush "Error".toList (ESC :: "[31m".toList) (by decide) "boom\r\n".toList).2.1
      "boom".toList rfl,
    (C7_NewBrush "Error".toList (ESC :: "[31m".toList) (by decide) "boom\n".toList).2.2.1
      "boom".toList rfl (by decide),
    (C7_NewBrush "Error".toList (ESC :: "[31m".toList) (by decide) "boom".toList).2.2.2
      (by decide) (by decide)⟩

/-- C8: a console writer whose stream is not a terminal passes every line to
the printer of its stream as it is and returns no error; a line without the
escape character is printed without it. -/
theorem C8_not_terminal (w : consoleLogWriter) (hw : w.isTerminal = false) (s : GoString) :
    w.Write s = (⟨w.logger, s⟩, none) ∧ (ESC ∉ s → ESC ∉ (w.Write s).1.text) := by
  have h : w.Write s = (⟨w.logger, s⟩, none) := by
    simp [consoleLogWriter.Write, hw]
  exact ⟨h, fun hs => by rw [h]; exact hs⟩

/-- C8, on a line with a severity tag and a routing tag. -/
theorem C8_not_terminal_witness :
    (newConsoleLogWriter false Stream.Stdout).Write "[Error] failed: boom [route1]\n".toList
      = (⟨Stream.Stdout, "[Error] failed: boom [route1]\n".toList⟩, none) :=
  (C8_not_terminal (newConsoleLogWriter false Stream.Stdout) rfl
    "[Error] failed: boom [route1]\n".toList).1

/-- C9 fails on the code: `newConsoleLogWriter(w)` does not use `w`; the writer
made by `CreateStderrLogWriter` prints every line on standard output, as the one
made by `CreateStdoutLogWriter` does. -/
theorem C9_stderr_writer_prints_on_stdout (stdoutIsTerminal : Bool) (s : GoString) :
    ((CreateStderrLogWriter stdoutIsTerminal ()).Write s).1.out = Stream.Stdout ∧
    ((CreateStderrLogWriter stdoutIsTerminal ()).Write s).1.out ≠ Stream.Stderr ∧
    ((CreateStdoutLogWriter stdoutIsTerminal ()).Write s).1.out = Stream.Stdout := by
  refine ⟨rfl, ?_, rfl⟩
  show Stream.Stdout ≠ Stream.Stderr
  decide

/-- C10 fails on the code: on a terminal, the line `[Error] failed: boom [route1]`
ended by CRLF is printed in the colour of Error with the tag left as it is; the
routing detector finds nothing, because `$` does not match before a carriage
return. -/
theorem C10_crlf_tag_not_coloured :
    FindStringSubmatchIndex routingRe "[Error] failed: boom [route1]\r\n".toList = [] ∧
    ((newConsoleLogWriter true Stream.Stdout).Write
        "[Error] failed: boom [route1]\r\n".toList).1.text
      = ESC :: "[31m[Error] failed: boom [route1]".toList ++ ESC :: "[0m\r\n".toList ∧
    ((newConsoleLogWriter true Stream.Stdout).Write
        "[Error] failed: boom [route1]\r\n".toList).1.text
      ≠ ESC :: "[31m[Error] failed: boom ".toList ++ ESC :: "[1;33m[route1]".toList ++
          ESC :: "[0m".toList ++ ESC :: "[0m\r\n".toList := by
  decide

end Log
